import Mathlib

/-!
Verification of the concurrent-map subsystem of the gx repository.

The subsystem exposes one contract (cmap.Map) with several backends:
  * rwMap   (cmap/rwmap/rwmap.go): sync.RWMutex around a built-in Go map;
            its methods do not check the receiver for nil, and the type's
            doc comment states that calling methods on a nil receiver panics.
  * altRwMap (a second, nil-tolerant variant of rwMap present in the
            repository next to the rwmap tests): every method first checks
            the receiver for nil and degrades to a zero-effect result, and
            the inner map is lazily allocated by ensureStore.
  * syncMap (cmap/syncmap/syncmap.go): wraps sync.Map; every method checks
            the receiver for nil; Len is computed by iterating with Range
            and counting.
  * a counter-backed variant of the sync.Map backend described by the
    design document but not present in the extracted sources; it is
    modelled from the spec below (see CounterMap).

A Go map is modelled as an association list whose keys are unique
(NodupKeys).  Go's comma-ok lookup returns the zero value of V when the key
is absent; the zero value is modelled as Inhabited.default.  A nil pointer
receiver is modelled as (none : Option _); a method body that dereferences
a nil receiver faults, which is modelled as Except.error.
-/

set_option linter.unusedSectionVars false

namespace GxCmap

variable {K V : Type} [DecidableEq K]

/-- Go map read `m[key]` as an Option: first pair with the given key. -/
def mapLookup (k : K) : List (K × V) → Option V
  | [] => none
  | p :: t => if p.1 = k then some p.2 else mapLookup k t

/-- Go map assignment `m[key] = value`: replace in place, or append. -/
def mapStore (k : K) (v : V) : List (K × V) → List (K × V)
  | [] => [(k, v)]
  | p :: t => if p.1 = k then (k, v) :: t else p :: mapStore k v t

/-- Go `delete(m, key)`: drop every pair carrying the key. -/
def mapErase (k : K) : List (K × V) → List (K × V)
  | [] => []
  | p :: t => if p.1 = k then mapErase k t else p :: mapErase k t

/-- The keys of a model map are pairwise distinct, as in a real Go map. -/
def NodupKeys (l : List (K × V)) : Prop := (l.map Prod.fst).Nodup

/-- The entries on which a Range loop invokes its callback, in order:
each visited entry is recorded, and the loop stops after the first entry
on which the callback returns false. -/
def rangeCalls (fn : K → V → Bool) : List (K × V) → List (K × V)
  | [] => []
  | p :: t => p :: (if fn p.1 p.2 then rangeCalls fn t else [])

/-- A Range loop with a stateful callback: returns the final callback
state and the number of callback invocations. -/
def rangeFoldCount {σ : Type} (fn : σ → K → V → σ × Bool) :
    σ → List (K × V) → σ × Nat
  | s, [] => (s, 0)
  | s, p :: t =>
    match fn s p.1 p.2 with
    | (s1, true) =>
      ((rangeFoldCount fn s1 t).1, (rangeFoldCount fn s1 t).2 + 1)
    | (s1, false) => (s1, 1)

/-! ### rwMap backend (cmap/rwmap/rwmap.go)

State of a constructed rwMap: the guarded built-in map.  newMap always
allocates the inner map, so the state is just the entry list.  Locking is
internal and sequentially invisible; each method is the function its body
computes between Lock and Unlock. -/

namespace RW

/-- rwMap.Load: value, ok = m.store[key] (zero value when absent). -/
def Load [Inhabited V] (k : K) (l : List (K × V)) : V × Bool :=
  ((mapLookup k l).getD default, (mapLookup k l).isSome)

/-- rwMap.Store: m.store[key] = value. -/
def Store (k : K) (v : V) (l : List (K × V)) : List (K × V) :=
  mapStore k v l

/-- rwMap.LoadOrStore under the write lock: return the existing value
with loaded=true, else insert and return the given value with false. -/
def LoadOrStore (k : K) (v : V) (l : List (K × V)) :
    (V × Bool) × List (K × V) :=
  match mapLookup k l with
  | some w => ((w, true), l)
  | none => ((v, false), mapStore k v l)

/-- rwMap.LoadAndDelete: read the key, delete it only when present. -/
def LoadAndDelete [Inhabited V] (k : K) (l : List (K × V)) :
    (V × Bool) × List (K × V) :=
  match mapLookup k l with
  | some w => ((w, true), mapErase k l)
  | none => ((default, false), l)

/-- rwMap.Delete: delete(m.store, key). -/
def Delete (k : K) (l : List (K × V)) : List (K × V) :=
  mapErase k l

/-- rwMap.Range: the snapshot copied under the read lock is the whole
entry list at that moment. -/
def snapshot (l : List (K × V)) : List (K × V) := l

/-- rwMap.Range: copy a snapshot under the read lock, unlock, then invoke
the callback on the copied entries until it returns false.  The result is
the trace of entries on which the callback is invoked. -/
def Range (fn : K → V → Bool) (l : List (K × V)) : List (K × V) :=
  rangeCalls fn (snapshot l)

/-- rwMap.Len: len(m.store). -/
def Len (l : List (K × V)) : Nat := l.length

/-- The interleaving relevant to snapshot isolation: Range copies its
snapshot under the read lock, the lock is released, a concurrent Delete
lands on the map, and only then does the callback phase run.  First
component: the callback trace; second: the map after the Delete. -/
def RangeWithLateDelete (fn : K → V → Bool) (d : K) (l : List (K × V)) :
    List (K × V) × List (K × V) :=
  (rangeCalls fn (snapshot l), mapErase d (snapshot l))

/-! Nil-receiver view of rwMap (methods on Option state).  Every method
body of this backend dereferences the receiver without a nil check (it
takes m.mu first), so a nil receiver faults; Except.error models the
runtime panic. -/

/-- Calling (*rwMap).Load on a possibly-nil receiver. -/
def LoadRef [Inhabited V] (k : K) :
    Option (List (K × V)) → Except Unit (V × Bool)
  | none => .error ()
  | some l => .ok (Load k l)

/-- Calling (*rwMap).Store on a possibly-nil receiver. -/
def StoreRef (k : K) (v : V) :
    Option (List (K × V)) → Except Unit (List (K × V))
  | none => .error ()
  | some l => .ok (Store k v l)

/-- Calling (*rwMap).LoadOrStore on a possibly-nil receiver. -/
def LoadOrStoreRef (k : K) (v : V) :
    Option (List (K × V)) → Except Unit ((V × Bool) × List (K × V))
  | none => .error ()
  | some l => .ok (LoadOrStore k v l)

/-- Calling (*rwMap).LoadAndDelete on a possibly-nil receiver. -/
def LoadAndDeleteRef [Inhabited V] (k : K) :
    Option (List (K × V)) → Except Unit ((V × Bool) × List (K × V))
  | none => .error ()
  | some l => .ok (LoadAndDelete k l)

/-- Calling (*rwMap).Delete on a possibly-nil receiver. -/
def DeleteRef (k : K) :
    Option (List (K × V)) → Except Unit (List (K × V))
  | none => .error ()
  | some l => .ok (Delete k l)

/-- Calling (*rwMap).Range on a possibly-nil receiver with a non-nil
callback: the fn == nil guard does not fire, and m.mu.RLock() faults. -/
def RangeRef (fn : K → V → Bool) :
    Option (List (K × V)) → Except Unit (List (K × V))
  | none => .error ()
  | some l => .ok (Range fn l)

/-- Calling (*rwMap).Len on a possibly-nil receiver. -/
def LenRef : Option (List (K × V)) → Except Unit Nat
  | none => .error ()
  | some l => .ok (Len l)

end RW

/-! ### Nil-tolerant rwMap variant (second rwmap implementation in the
repository).  The receiver may be nil, and the inner map may itself be
nil until ensureStore allocates it; so a reference is an Option of an
Option entry list. -/

namespace Alt

/-- ensureStore: a nil inner map is read as empty and allocated on write. -/
def ensureStore (s : Option (List (K × V))) : List (K × V) := s.getD []

/-- Variant Load: nil receiver and nil inner map both report absent. -/
def Load [Inhabited V] (k : K) :
    Option (Option (List (K × V))) → V × Bool
  | none => (default, false)
  | some none => (default, false)
  | some (some l) => ((mapLookup k l).getD default, (mapLookup k l).isSome)

/-- Variant Store: no-op on nil receiver, else ensureStore then assign. -/
def Store (k : K) (v : V) :
    Option (Option (List (K × V))) → Option (Option (List (K × V)))
  | none => none
  | some s => some (some (mapStore k v (ensureStore s)))

/-- Variant LoadOrStore: nil receiver returns the given value with
loaded=false and stores nothing. -/
def LoadOrStore (k : K) (v : V) :
    Option (Option (List (K × V))) →
      (V × Bool) × Option (Option (List (K × V)))
  | none => ((v, false), none)
  | some s =>
    match mapLookup k (ensureStore s) with
    | some w => ((w, true), some s)
    | none => ((v, false), some (some (mapStore k v (ensureStore s))))

/-- Variant LoadAndDelete: nil receiver or nil inner map report absent. -/
def LoadAndDelete [Inhabited V] (k : K) :
    Option (Option (List (K × V))) →
      (V × Bool) × Option (Option (List (K × V)))
  | none => ((default, false), none)
  | some none => ((default, false), some none)
  | some (some l) =>
    match mapLookup k l with
    | some w => ((w, true), some (some (mapErase k l)))
    | none => ((default, false), some (some l))

/-- Variant Delete: no-op on nil receiver or nil inner map. -/
def Delete (k : K) :
    Option (Option (List (K × V))) → Option (Option (List (K × V)))
  | none => none
  | some none => some none
  | some (some l) => some (some (mapErase k l))

/-- Variant Range: nil receiver or empty map invoke nothing; otherwise a
snapshot is copied under the read lock and the callback runs on it. -/
def Range (fn : K → V → Bool) :
    Option (Option (List (K × V))) → List (K × V)
  | none => []
  | some s =>
    if (ensureStore s).length = 0 then [] else rangeCalls fn (ensureStore s)

/-- Variant Len: 0 on nil receiver; len of a nil inner map is 0. -/
def Len : Option (Option (List (K × V))) → Nat
  | none => 0
  | some s => (ensureStore s).length

end Alt

/-! ### syncMap backend (cmap/syncmap/syncmap.go)

sync.Map is modelled by its sequential contents, an entry list; a
syncMap reference is an Option of that state, none for a nil receiver.
Every method begins with an `if m == nil` guard. -/

namespace SM

/-- syncMap.New: a fresh non-nil map with an empty store. -/
def New : Option (List (K × V)) := some []

/-- syncMap.Load: nil receiver or absent key give the zero value. -/
def Load [Inhabited V] (k : K) : Option (List (K × V)) → V × Bool
  | none => (default, false)
  | some l =>
    match mapLookup k l with
    | none => (default, false)
    | some w => (w, true)

/-- syncMap.Store: no-op on nil receiver, else sync.Map.Store. -/
def Store (k : K) (v : V) :
    Option (List (K × V)) → Option (List (K × V))
  | none => none
  | some l => some (mapStore k v l)

/-- syncMap.LoadOrStore: on a nil receiver it returns (value, false)
without storing; else it delegates to sync.Map.LoadOrStore. -/
def LoadOrStore (k : K) (v : V) :
    Option (List (K × V)) → (V × Bool) × Option (List (K × V))
  | none => ((v, false), none)
  | some l =>
    match mapLookup k l with
    | some w => ((w, true), some l)
    | none => ((v, false), some (mapStore k v l))

/-- syncMap.LoadAndDelete: nil receiver or absent key give the zero
value; a present key is removed and its value returned. -/
def LoadAndDelete [Inhabited V] (k : K) :
    Option (List (K × V)) → (V × Bool) × Option (List (K × V))
  | none => ((default, false), none)
  | some l =>
    match mapLookup k l with
    | none => ((default, false), some l)
    | some w => ((w, true), some (mapErase k l))

/-- syncMap.Delete: no-op on nil receiver, else sync.Map.Delete. -/
def Delete (k : K) : Option (List (K × V)) → Option (List (K × V))
  | none => none
  | some l => some (mapErase k l)

/-- syncMap.Range: nothing on a nil receiver; else sync.Map.Range, which
invokes the callback per entry until it returns false.  The result is the
trace of entries on which the callback is invoked. -/
def Range (fn : K → V → Bool) : Option (List (K × V)) → List (K × V)
  | none => []
  | some l => rangeCalls fn l

/-- syncMap.Len: 0 on a nil receiver; otherwise computed by iterating
with Range and counting the invocations (count++; return true). -/
def Len : Option (List (K × V)) → Nat
  | none => 0
  | some l =>
    (rangeFoldCount (fun (c : Nat) (_ : K) (_ : V) => (c + 1, true)) 0 l).1

end SM

/-! ### Counter-backed sync.Map variant, modelled from the spec.

The design document describes a second variant of the sync.Map backend
that keeps an atomic live-entry counter so that Len is exact and O(1);
that variant is not among the extracted sources (the extracted syncmap
computes Len by iteration), so it is modelled here from the spec text of
section 4.3. -/

/-- Modelled from the spec: the counter-backed backend missing from the
extracted sources; it wraps the concurrent map primitive and layers an
independent atomic integer tracking the live-entry count. -/
structure CounterMap (K V : Type) where
  store : List (K × V)
  count : Int

namespace CM

/-- Modelled from the spec: the factory returns an empty map with the
counter at zero. -/
def New : CounterMap K V := ⟨[], 0⟩

/-- Modelled from the spec: Store runs an insert-if-absent probe, then
overwrites unconditionally when the probe reports the key already
existed; the counter is incremented only on the insert branch. -/
def Store (k : K) (v : V) (m : CounterMap K V) : CounterMap K V :=
  match mapLookup k m.store with
  | some _ => ⟨mapStore k v m.store, m.count⟩
  | none => ⟨mapStore k v m.store, m.count + 1⟩

/-- Modelled from the spec: LoadOrStore increments the counter only when
its insert-if-absent call reports no prior value. -/
def LoadOrStore (k : K) (v : V) (m : CounterMap K V) :
    (V × Bool) × CounterMap K V :=
  match mapLookup k m.store with
  | some w => ((w, true), m)
  | none => ((v, false), ⟨mapStore k v m.store, m.count + 1⟩)

/-- Modelled from the spec: LoadAndDelete decrements the counter only
when a value was actually removed. -/
def LoadAndDelete [Inhabited V] (k : K) (m : CounterMap K V) :
    (V × Bool) × CounterMap K V :=
  match mapLookup k m.store with
  | some w => ((w, true), ⟨mapErase k m.store, m.count - 1⟩)
  | none => ((default, false), m)

/-- Modelled from the spec: Delete decrements the counter only when a
value was actually removed. -/
def Delete (k : K) (m : CounterMap K V) : CounterMap K V :=
  match mapLookup k m.store with
  | some _ => ⟨mapErase k m.store, m.count - 1⟩
  | none => m

/-- Modelled from the spec: Len reads the counter, without iterating. -/
def Len (m : CounterMap K V) : Int := m.count

end CM

/-! ### Operation sequences

The mutating operations of the contract, used to quantify over every
sequence of operations a caller can run against a backend (Load, Range
and Len do not mutate). -/

inductive Op (K V : Type) where
  | store (k : K) (v : V)
  | loadOrStore (k : K) (v : V)
  | delete (k : K)
  | loadAndDelete (k : K)

/-- Effect of one contract operation on an rwMap. -/
def RW.applyOp [Inhabited V] : Op K V → List (K × V) → List (K × V)
  | .store k v, l => RW.Store k v l
  | .loadOrStore k v, l => (RW.LoadOrStore k v l).2
  | .delete k, l => RW.Delete k l
  | .loadAndDelete k, l => (RW.LoadAndDelete k l).2

/-- An rwMap after a sequence of operations run from a fresh map. -/
def RW.applyOps [Inhabited V] (ops : List (Op K V)) : List (K × V) :=
  ops.foldl (fun l o => RW.applyOp o l) []

/-- Effect of one contract operation on a syncMap reference. -/
def SM.applyOp [Inhabited V] :
    Op K V → Option (List (K × V)) → Option (List (K × V))
  | .store k v, s => SM.Store k v s
  | .loadOrStore k v, s => (SM.LoadOrStore k v s).2
  | .delete k, s => SM.Delete k s
  | .loadAndDelete k, s => (SM.LoadAndDelete k s).2

/-- A syncMap after a sequence of operations run from New. -/
def SM.applyOps [Inhabited V] (ops : List (Op K V)) :
    Option (List (K × V)) :=
  ops.foldl (fun s o => SM.applyOp o s) SM.New

/-- Effect of one contract operation on the counter-backed map. -/
def CM.applyOp [Inhabited V] : Op K V → CounterMap K V → CounterMap K V
  | .store k v, m => CM.Store k v m
  | .loadOrStore k v, m => (CM.LoadOrStore k v m).2
  | .delete k, m => CM.Delete k m
  | .loadAndDelete k, m => (CM.LoadAndDelete k m).2

/-- A counter-backed map after a sequence of operations run from New. -/
def CM.applyOps [Inhabited V] (ops : List (Op K V)) : CounterMap K V :=
  ops.foldl (fun m o => CM.applyOp o m) CM.New

/-! ### Lemmas about the Go map model -/

theorem mapLookup_mapStore_self (k : K) (v : V) (l : List (K × V)) :
    mapLookup k (mapStore k v l) = some v := by
  induction l with
  | nil => simp [mapStore, mapLookup]
  | cons p t ih =>
    by_cases h : p.1 = k
    · simp [mapStore, mapLookup, h]
    · simp [mapStore, mapLookup, h, ih]

theorem mapLookup_mapStore_ne (k1 k : K) (v : V) (l : List (K × V))
    (h : k1 ≠ k) : mapLookup k1 (mapStore k v l) = mapLookup k1 l := by
  induction l with
  | nil => simp [mapStore, mapLookup, Ne.symm h]
  | cons p t ih =>
    by_cases hp : p.1 = k
    · subst hp
      simp [mapStore, mapLookup, Ne.symm h]
    · simp [mapStore, mapLookup, hp, ih]

theorem mapLookup_mapErase_self (k : K) (l : List (K × V)) :
    mapLookup k (mapErase k l) = none := by
  induction l with
  | nil => simp [mapErase, mapLookup]
  | cons p t ih =>
    by_cases h : p.1 = k
    · simp [mapErase, h, ih]
    · simp [mapErase, mapLookup, h, ih]

theorem mapLookup_mapErase_ne (k1 k : K) (l : List (K × V))
    (h : k1 ≠ k) : mapLookup k1 (mapErase k l) = mapLookup k1 l := by
  induction l with
  | nil => simp [mapErase]
  | cons p t ih =>
    by_cases hp : p.1 = k
    · subst hp
      simp [mapErase, mapLookup, Ne.symm h, ih]
    · by_cases hk1 : p.1 = k1
      · simp [mapErase, mapLookup, hp, hk1, h]
      · simp [mapErase, mapLookup, hp, hk1, h, ih]

theorem mapLookup_eq_none_iff (k : K) (l : List (K × V)) :
    mapLookup k l = none ↔ k ∉ l.map Prod.fst := by
  induction l with
  | nil => simp [mapLookup]
  | cons p t ih =>
    by_cases h : p.1 = k
    · simp [mapLookup, h]
    · rw [List.map_cons, List.mem_cons]
      simp only [mapLookup, if_neg h, ih]
      have h2 : ¬ k = p.1 := fun e => h e.symm
      tauto

theorem length_mapStore (k : K) (v : V) (l : List (K × V)) :
    (mapStore k v l).length =
      if (mapLookup k l).isSome then l.length else l.length + 1 := by
  induction l with
  | nil => simp [mapStore, mapLookup]
  | cons p t ih =>
    by_cases h : p.1 = k
    · simp [mapStore, mapLookup, h]
    · simp only [mapStore, if_neg h, mapLookup, List.length_cons, ih]
      by_cases hs : (mapLookup k t).isSome
      · simp [h, hs]
      · simp [h, hs]

theorem mapLookup_isSome_length_pos (k : K) (l : List (K × V))
    (h : (mapLookup k l).isSome) : 0 < l.length := by
  cases l with
  | nil => simp [mapLookup] at h
  | cons p t => simp

theorem keys_mem_mapStore (a k : K) (v : V) (l : List (K × V)) :
    a ∈ (mapStore k v l).map Prod.fst ↔ a ∈ l.map Prod.fst ∨ a = k := by
  induction l with
  | nil => simp [mapStore]
  | cons p t ih =>
    by_cases h : p.1 = k
    · subst h
      simp [mapStore]
      tauto
    · simp [mapStore, h, ih]
      tauto

theorem keys_mem_mapErase (a k : K) (l : List (K × V))
    (h : a ∈ (mapErase k l).map Prod.fst) : a ∈ l.map Prod.fst := by
  induction l with
  | nil => simp [mapErase] at h
  | cons p t ih =>
    by_cases hp : p.1 = k
    · simp only [mapErase, if_pos hp] at h
      exact List.mem_cons_of_mem _ (ih h)
    · simp only [mapErase, if_neg hp, List.map_cons, List.mem_cons] at h ⊢
      tauto

theorem nodupKeys_mapStore (k : K) (v : V) (l : List (K × V))
    (h : NodupKeys l) : NodupKeys (mapStore k v l) := by
  induction l with
  | nil => simp [NodupKeys, mapStore]
  | cons p t ih =>
    simp only [NodupKeys, List.map_cons, List.nodup_cons] at h
    by_cases hp : p.1 = k
    · subst hp
      simpa [NodupKeys, mapStore] using h
    · have ht := ih h.2
      simp only [NodupKeys, mapStore, if_neg hp, List.map_cons,
        List.nodup_cons]
      refine ⟨?_, ht⟩
      intro hmem
      rcases (keys_mem_mapStore p.1 k v t).1 hmem with hin | heq
      · exact h.1 hin
      · exact hp heq

theorem nodupKeys_mapErase (k : K) (l : List (K × V))
    (h : NodupKeys l) : NodupKeys (mapErase k l) := by
  induction l with
  | nil => simp [NodupKeys, mapErase]
  | cons p t ih =>
    simp only [NodupKeys, List.map_cons, List.nodup_cons] at h
    by_cases hp : p.1 = k
    · simp only [mapErase, if_pos hp]
      exact ih h.2
    · simp only [NodupKeys, mapErase, if_neg hp, List.map_cons,
        List.nodup_cons]
      exact ⟨fun hm => h.1 (keys_mem_mapErase _ _ _ hm), ih h.2⟩

theorem mapErase_of_not_mem (k : K) (l : List (K × V))
    (h : k ∉ l.map Prod.fst) : mapErase k l = l := by
  induction l with
  | nil => rfl
  | cons p t ih =>
    simp only [List.map_cons, List.mem_cons] at h
    push_neg at h
    have hp : p.1 ≠ k := fun e => h.1 e.symm
    simp [mapErase, hp, ih h.2]

theorem length_mapErase (k : K) (l : List (K × V)) (h : NodupKeys l) :
    (mapErase k l).length =
      if (mapLookup k l).isSome then l.length - 1 else l.length := by
  induction l with
  | nil => simp [mapErase, mapLookup]
  | cons p t ih =>
    simp only [NodupKeys, List.map_cons, List.nodup_cons] at h
    by_cases hp : p.1 = k
    · have hnone : mapLookup k t = none := by
        rw [mapLookup_eq_none_iff]
        exact hp ▸ h.1
      have herase : mapErase k t = t :=
        mapErase_of_not_mem k t ((mapLookup_eq_none_iff k t).1 hnone)
      simp [mapErase, mapLookup, hp, herase, hnone]
    · have ht := ih h.2
      by_cases hs : (mapLookup k t).isSome
      · have hpos := mapLookup_isSome_length_pos k t hs
        simp only [mapErase, if_neg hp, mapLookup, if_neg hp,
          List.length_cons, hs, if_true, ht]
        omega
      · simp [mapErase, mapLookup, hp, hs, ht]

theorem rangeCalls_eq_take (fn : K → V → Bool) (l : List (K × V)) :
    ∃ n, rangeCalls fn l = l.take n := by
  induction l with
  | nil => exact ⟨0, rfl⟩
  | cons p t ih =>
    by_cases h : fn p.1 p.2
    · obtain ⟨n, hn⟩ := ih
      exact ⟨n + 1, by simp [rangeCalls, h, hn]⟩
    · exact ⟨1, by simp [rangeCalls, h]⟩

theorem rangeCalls_of_true (fn : K → V → Bool) (l : List (K × V))
    (h : ∀ k v, fn k v = true) : rangeCalls fn l = l := by
  induction l with
  | nil => rfl
  | cons p t ih => simp [rangeCalls, h, ih]

theorem rangeFoldCount_count (c : Nat) (l : List (K × V)) :
    rangeFoldCount (fun (c : Nat) (_ : K) (_ : V) => (c + 1, true)) c l =
      (c + l.length, l.length) := by
  induction l generalizing c with
  | nil => simp [rangeFoldCount]
  | cons p t ih =>
    show ((rangeFoldCount _ (c + 1) t).1, (rangeFoldCount _ (c + 1) t).2 + 1)
        = (c + (p :: t).length, (p :: t).length)
    rw [ih]
    simp only [List.length_cons, Prod.mk.injEq, and_true]
    omega

/-! ### Invariant lemmas -/

theorem SM.Len_some [Inhabited V] (l : List (K × V)) :
    SM.Len (some l) = l.length := by
  simp [SM.Len, rangeFoldCount_count]

theorem SM.applyOp_some [Inhabited V] (o : Op K V) (l : List (K × V)) :
    SM.applyOp o (some l) = some (RW.applyOp o l) := by
  cases o with
  | store k v => rfl
  | loadOrStore k v =>
    show (SM.LoadOrStore k v (some l)).2 = some (RW.LoadOrStore k v l).2
    cases h : mapLookup k l <;>
      simp [SM.LoadOrStore, RW.LoadOrStore, h]
  | delete k => rfl
  | loadAndDelete k =>
    show (SM.LoadAndDelete k (some l)).2 = some (RW.LoadAndDelete k l).2
    cases h : mapLookup k l <;>
      simp [SM.LoadAndDelete, RW.LoadAndDelete, h]

theorem SM.applyOps_eq [Inhabited V] (ops : List (Op K V)) :
    SM.applyOps ops = some (RW.applyOps (K := K) (V := V) ops) := by
  suffices h : ∀ l : List (K × V),
      ops.foldl (fun s o => SM.applyOp o s) (some l)
        = some (ops.foldl (fun l o => RW.applyOp o l) l) by
    exact h []
  induction ops with
  | nil => intro l; rfl
  | cons o rest ih =>
    intro l
    simp only [List.foldl_cons, SM.applyOp_some]
    exact ih (RW.applyOp o l)

theorem RW.nodupKeys_applyOp [Inhabited V] (o : Op K V)
    (l : List (K × V)) (h : NodupKeys l) : NodupKeys (RW.applyOp o l) := by
  cases o with
  | store k v => exact nodupKeys_mapStore k v l h
  | loadOrStore k v =>
    show NodupKeys (RW.LoadOrStore k v l).2
    cases hk : mapLookup k l with
    | some w => simpa [RW.LoadOrStore, hk] using h
    | none =>
      simpa [RW.LoadOrStore, hk] using nodupKeys_mapStore k v l h
  | delete k => exact nodupKeys_mapErase k l h
  | loadAndDelete k =>
    show NodupKeys (RW.LoadAndDelete k l).2
    cases hk : mapLookup k l with
    | some w =>
      simpa [RW.LoadAndDelete, hk] using nodupKeys_mapErase k l h
    | none => simpa [RW.LoadAndDelete, hk] using h

theorem RW.nodupKeys_applyOps [Inhabited V] (ops : List (Op K V)) :
    NodupKeys (RW.applyOps ops) := by
  suffices h : ∀ l : List (K × V), NodupKeys l →
      NodupKeys (ops.foldl (fun l o => RW.applyOp o l) l) by
    exact h [] (by simp [NodupKeys])
  induction ops with
  | nil => intro l hl; exact hl
  | cons o rest ih =>
    intro l hl
    simp only [List.foldl_cons]
    exact ih _ (RW.nodupKeys_applyOp o l hl)

theorem card_keys_of_nodup (l : List (K × V)) (h : NodupKeys l) :
    (l.map Prod.fst).toFinset.card = l.length := by
  rw [List.toFinset_card_of_nodup h, List.length_map]

/-- Counter-backend invariant: the counter equals the number of stored
entries and keys stay unique. -/
def CInv (m : CounterMap K V) : Prop :=
  m.count = m.store.length ∧ NodupKeys m.store

theorem CM.inv_applyOp [Inhabited V] (o : Op K V) (m : CounterMap K V)
    (h : CInv m) : CInv (CM.applyOp o m) := by
  obtain ⟨hc, hn⟩ := h
  cases o with
  | store k v =>
    show CInv (CM.Store k v m)
    cases hk : mapLookup k m.store with
    | some w =>
      simp only [CM.Store, hk]
      refine ⟨?_, nodupKeys_mapStore k v m.store hn⟩
      rw [length_mapStore]
      simp [hk, hc]
    | none =>
      simp only [CM.Store, hk]
      refine ⟨?_, nodupKeys_mapStore k v m.store hn⟩
      rw [length_mapStore]
      simp only [hk, Option.isSome_none, Bool.false_eq_true, if_false]
      omega
  | loadOrStore k v =>
    show CInv (CM.LoadOrStore k v m).2
    cases hk : mapLookup k m.store with
    | some w =>
      simp only [CM.LoadOrStore, hk]
      exact ⟨hc, hn⟩
    | none =>
      simp only [CM.LoadOrStore, hk]
      refine ⟨?_, nodupKeys_mapStore k v m.store hn⟩
      rw [length_mapStore]
      simp only [hk, Option.isSome_none, Bool.false_eq_true, if_false]
      omega
  | delete k =>
    show CInv (CM.Delete k m)
    cases hk : mapLookup k m.store with
    | some w =>
      have hpos := mapLookup_isSome_length_pos k m.store (by simp [hk])
      simp only [CM.Delete, hk]
      refine ⟨?_, nodupKeys_mapErase k m.store hn⟩
      rw [length_mapErase k m.store hn]
      simp only [hk, Option.isSome_some, if_true]
      omega
    | none =>
      simp only [CM.Delete, hk]
      exact ⟨hc, hn⟩
  | loadAndDelete k =>
    show CInv (CM.LoadAndDelete k m).2
    cases hk : mapLookup k m.store with
    | some w =>
      have hpos := mapLookup_isSome_length_pos k m.store (by simp [hk])
      simp only [CM.LoadAndDelete, hk]
      refine ⟨?_, nodupKeys_mapErase k m.store hn⟩
      rw [length_mapErase k m.store hn]
      simp only [hk, Option.isSome_some, if_true]
      omega
    | none =>
      simp only [CM.LoadAndDelete, hk]
      exact ⟨hc, hn⟩

theorem CM.inv_applyOps [Inhabited V] (ops : List (Op K V)) :
    CInv (CM.applyOps (K := K) (V := V) ops) := by
  suffices h : ∀ m : CounterMap K V, CInv m →
      CInv (ops.foldl (fun m o => CM.applyOp o m) m) by
    exact h CM.New ⟨rfl, by simp [CM.New, NodupKeys]⟩
  induction ops with
  | nil => intro m hm; exact hm
  | cons o rest ih =>
    intro m hm
    simp only [List.foldl_cons]
    exact ih _ (CM.inv_applyOp o m hm)

/-! ### Claim theorems -/

/-- C1, counterexample: on the rwMap backend, Load on a nil map reference
does not degrade to the documented zero-effect not-found result; the
method body dereferences the nil receiver and faults. -/
theorem C1_counterexample :
    RW.LoadRef 0 (none : Option (List (Nat × Nat))) = .error ()
      ∧ RW.LoadRef 0 (none : Option (List (Nat × Nat))) ≠ .ok (0, false) :=
  ⟨rfl, fun h => nomatch h⟩

/-- C1, amended: on a nil map reference, every operation of the syncMap
backend and of the nil-tolerant rwMap variant degrades to the documented
zero-effect result (Load returns not-found with a zero value, Store is a
no-op, Len returns 0, Delete and Range are no-ops, LoadOrStore and
LoadAndDelete store and remove nothing); the primary rwMap backend
instead faults on every operation invoked on a nil reference, as its own
doc comment states. -/
theorem C1_amended_nil_behavior [Inhabited V] (k : K) (v : V)
    (fn : K → V → Bool) :
    SM.Load k (none : Option (List (K × V))) = (default, false)
    ∧ SM.Store k v (none : Option (List (K × V))) = none
    ∧ SM.LoadOrStore k v (none : Option (List (K × V))) = ((v, false), none)
    ∧ SM.LoadAndDelete k (none : Option (List (K × V)))
        = ((default, false), none)
    ∧ SM.Delete k (none : Option (List (K × V))) = none
    ∧ SM.Range fn (none : Option (List (K × V))) = []
    ∧ SM.Len (none : Option (List (K × V))) = 0
    ∧ Alt.Load k (none : Option (Option (List (K × V)))) = (default, false)
    ∧ Alt.Store k v (none : Option (Option (List (K × V)))) = none
    ∧ Alt.LoadOrStore k v (none : Option (Option (List (K × V))))
        = ((v, false), none)
    ∧ Alt.LoadAndDelete k (none : Option (Option (List (K × V))))
        = ((default, false), none)
    ∧ Alt.Delete k (none : Option (Option (List (K × V)))) = none
    ∧ Alt.Range fn (none : Option (Option (List (K × V)))) = []
    ∧ Alt.Len (none : Option (Option (List (K × V)))) = 0
    ∧ RW.LoadRef k (none : Option (List (K × V))) = .error ()
    ∧ RW.StoreRef k v (none : Option (List (K × V))) = .error ()
    ∧ RW.LoadOrStoreRef k v (none : Option (List (K × V))) = .error ()
    ∧ RW.LoadAndDeleteRef k (none : Option (List (K × V))) = .error ()
    ∧ RW.DeleteRef k (none : Option (List (K × V))) = .error ()
    ∧ RW.RangeRef fn (none : Option (List (K × V))) = .error ()
    ∧ RW.LenRef (none : Option (List (K × V))) = .error () :=
  ⟨rfl, rfl, rfl, rfl, rfl, rfl, rfl, rfl, rfl, rfl, rfl, rfl, rfl, rfl,
   rfl, rfl, rfl, rfl, rfl, rfl, rfl⟩

/-- C2: modelled from the spec, the counter-backed sync.Map variant keeps
its counter equal to the number of live entries across every operation
sequence, incrementing exactly once per net insertion (Store and
LoadOrStore only on their insert branch) and decrementing exactly once
per net removal (Delete and LoadAndDelete only when a value was actually
removed), so Len reports the exact count from the counter. -/
theorem C2_counter_len_exact [Inhabited V] (ops : List (Op K V)) (k : K)
    (v : V) (m : CounterMap K V) :
    CM.Len (CM.applyOps ops)
        = ((((CM.applyOps ops).store.map Prod.fst).toFinset.card : Nat) : Int)
    ∧ CM.Len (CM.Store k v m)
        = CM.Len m + (if (mapLookup k m.store).isSome then 0 else 1)
    ∧ CM.Len (CM.LoadOrStore k v m).2
        = CM.Len m + (if (mapLookup k m.store).isSome then 0 else 1)
    ∧ CM.Len (CM.Delete k m)
        = CM.Len m - (if (mapLookup k m.store).isSome then 1 else 0)
    ∧ CM.Len (CM.LoadAndDelete k m).2
        = CM.Len m - (if (mapLookup k m.store).isSome then 1 else 0) := by
  obtain ⟨hc, hn⟩ := CM.inv_applyOps (K := K) (V := V) ops
  refine ⟨?_, ?_, ?_, ?_, ?_⟩
  · rw [CM.Len, hc, card_keys_of_nodup _ hn]
  · cases hk : mapLookup k m.store with
    | some w => simp [CM.Len, CM.Store, hk]
    | none => simp [CM.Len, CM.Store, hk]
  · cases hk : mapLookup k m.store with
    | some w => simp [CM.Len, CM.LoadOrStore, hk]
    | none => simp [CM.Len, CM.LoadOrStore, hk]
  · cases hk : mapLookup k m.store with
    | some w => simp [CM.Len, CM.Delete, hk]
    | none => simp [CM.Len, CM.Delete, hk]
  · cases hk : mapLookup k m.store with
    | some w => simp [CM.Len, CM.LoadAndDelete, hk]
    | none => simp [CM.Len, CM.LoadAndDelete, hk]

/-- C3: for the mutex backend, a Range whose snapshot was copied under
the read lock runs its callback on exactly that snapshot: a Delete that
lands after the lock was released does not change the callback trace,
every invoked entry comes from the snapshot (a take-front of the entries
at lock time), and a callback that never stops is invoked on exactly the
entries present when the lock was acquired. -/
theorem C3_range_snapshot_isolation [Inhabited V] (fn : K → V → Bool)
    (d : K) (l : List (K × V)) :
    (RW.RangeWithLateDelete fn d l).1 = RW.Range fn l
    ∧ (RW.RangeWithLateDelete fn d l).2 = RW.Delete d l
    ∧ (∃ n, RW.Range fn l = l.take n)
    ∧ ((∀ a b, fn a b = true) → RW.Range fn l = l) :=
  ⟨rfl, rfl, rangeCalls_eq_take fn l, fun h => rangeCalls_of_true fn l h⟩

/-- C3 witness: the snapshot-isolation theorem applied to a concrete map,
delete key and always-true callback. -/
theorem C3_witness :
    RW.Range (fun (_ : Nat) (_ : Nat) => true) [((5 : Nat), (6 : Nat)), (7, 8)]
      = [(5, 6), (7, 8)] :=
  (C3_range_snapshot_isolation (fun _ _ => true) 5 [(5, 6), (7, 8)]).2.2.2
    (fun _ _ => rfl)

/-- C4: for both backends and every sequence of contract operations from
a fresh map, Len equals the number of distinct keys currently stored and
not yet deleted; a Store of a new key raises it by one, an overwriting
Store leaves it unchanged, removal of a present key lowers it by one and
removal of an absent key leaves it unchanged. -/
theorem C4_len_distinct_keys [Inhabited V] (ops : List (Op K V)) (k : K)
    (v : V) :
    RW.Len (RW.applyOps ops)
        = ((RW.applyOps ops).map Prod.fst).toFinset.card
    ∧ SM.Len (SM.applyOps ops)
        = ((RW.applyOps ops).map Prod.fst).toFinset.card
    ∧ RW.Len (RW.Store k v (RW.applyOps ops))
        = (if (mapLookup k (RW.applyOps ops)).isSome
           then RW.Len (RW.applyOps ops)
           else RW.Len (RW.applyOps ops) + 1)
    ∧ RW.Len (RW.Delete k (RW.applyOps ops))
        = (if (mapLookup k (RW.applyOps ops)).isSome
           then RW.Len (RW.applyOps ops) - 1
           else RW.Len (RW.applyOps ops))
    ∧ SM.Len (SM.Store k v (SM.applyOps ops))
        = (if (mapLookup k (RW.applyOps ops)).isSome
           then SM.Len (SM.applyOps ops)
           else SM.Len (SM.applyOps ops) + 1)
    ∧ SM.Len (SM.Delete k (SM.applyOps ops))
        = (if (mapLookup k (RW.applyOps ops)).isSome
           then SM.Len (SM.applyOps ops) - 1
           else SM.Len (SM.applyOps ops)) := by
  have hnd := RW.nodupKeys_applyOps (K := K) (V := V) ops
  have hcard := card_keys_of_nodup _ hnd
  have heq := SM.applyOps_eq (K := K) (V := V) ops
  refine ⟨hcard.symm, ?_, ?_, ?_, ?_, ?_⟩
  · rw [heq, SM.Len_some, hcard]
  · simpa [RW.Len, RW.Store] using length_mapStore k v (RW.applyOps ops)
  · simpa [RW.Len, RW.Delete] using
      length_mapErase k (RW.applyOps ops) hnd
  · rw [heq]
    show SM.Len (some (mapStore k v (RW.applyOps ops))) = _
    rw [SM.Len_some, SM.Len_some, length_mapStore]
  · rw [heq]
    show SM.Len (some (mapErase k (RW.applyOps ops))) = _
    rw [SM.Len_some, SM.Len_some, length_mapErase k (RW.applyOps ops) hnd]

/-- C5: for both backends, immediately after Store(k, v) a Load(k)
returns (v, true). -/
theorem C5_load_after_store [Inhabited V] (k : K) (v : V)
    (l : List (K × V)) :
    RW.Load k (RW.Store k v l) = (v, true)
    ∧ SM.Load k (SM.Store k v (some l)) = (v, true) := by
  have h := mapLookup_mapStore_self k v l
  exact ⟨by simp [RW.Load, RW.Store, h], by simp [SM.Load, SM.Store, h]⟩

/-- C6: for both backends, LoadOrStore returns the existing value with
loaded=true and leaves the map unchanged when the key is present,
otherwise inserts the given value and returns it with loaded=false; on a
fresh map LoadOrStore(1, a) returns (a, false) and a subsequent
LoadOrStore(1, b) returns (a, true). -/
theorem C6_loadOrStore_semantics [Inhabited V] (k : K) (v w : V)
    (l : List (K × V)) :
    (mapLookup k l = some w →
      RW.LoadOrStore k v l = ((w, true), l)
      ∧ SM.LoadOrStore k v (some l) = ((w, true), some l))
    ∧ (mapLookup k l = none →
      RW.LoadOrStore k v l = ((v, false), mapStore k v l)
      ∧ SM.LoadOrStore k v (some l) = ((v, false), some (mapStore k v l)))
    ∧ RW.LoadOrStore 1 "a" ([] : List (Nat × String))
        = (("a", false), [(1, "a")])
    ∧ RW.LoadOrStore 1 "b" [((1 : Nat), "a")] = (("a", true), [(1, "a")])
    ∧ SM.LoadOrStore 1 "a" (SM.New : Option (List (Nat × String)))
        = (("a", false), some [(1, "a")])
    ∧ SM.LoadOrStore 1 "b"
        (SM.LoadOrStore 1 "a" (SM.New : Option (List (Nat × String)))).2
        = (("a", true), some [(1, "a")]) := by
  refine ⟨?_, ?_, rfl, rfl, rfl, rfl⟩
  · intro h
    exact ⟨by simp [RW.LoadOrStore, h], by simp [SM.LoadOrStore, h]⟩
  · intro h
    exact ⟨by simp [RW.LoadOrStore, h], by simp [SM.LoadOrStore, h]⟩

/-- C6 witness: the LoadOrStore theorem applied at concrete maps, once on
a present key and once on an absent key. -/
theorem C6_witness :
    (RW.LoadOrStore 2 7 [((2 : Nat), (5 : Nat))] = ((5, true), [(2, 5)])
      ∧ SM.LoadOrStore 2 7 (some [((2 : Nat), (5 : Nat))])
          = ((5, true), some [(2, 5)]))
    ∧ (RW.LoadOrStore 3 7 ([] : List (Nat × Nat)) = ((7, false), [(3, 7)])
      ∧ SM.LoadOrStore 3 7 (some ([] : List (Nat × Nat)))
          = ((7, false), some [(3, 7)])) :=
  ⟨(C6_loadOrStore_semantics 2 7 5 [(2, 5)]).1 rfl,
   (C6_loadOrStore_semantics 3 7 5 ([] : List (Nat × Nat))).2.1 rfl⟩

/-- C7: for both backends, after Delete(k), and after any LoadAndDelete(k),
Load(k) returns the zero value with found=false; a repeated
LoadAndDelete(k) returns the zero value with loaded=false and leaves the
state unchanged; LoadAndDelete on a present key returns exactly the value
stored prior to removal. -/
theorem C7_delete_semantics [Inhabited V] (k : K) (w : V)
    (l : List (K × V)) :
    RW.Load k (RW.Delete k l) = (default, false)
    ∧ SM.Load k (SM.Delete k (some l)) = (default, false)
    ∧ RW.Load k (RW.LoadAndDelete k l).2 = (default, false)
    ∧ SM.Load k (SM.LoadAndDelete k (some l)).2 = (default, false)
    ∧ RW.LoadAndDelete k (RW.LoadAndDelete k l).2
        = ((default, false), (RW.LoadAndDelete k l).2)
    ∧ SM.LoadAndDelete k (SM.LoadAndDelete k (some l)).2
        = ((default, false), (SM.LoadAndDelete k (some l)).2)
    ∧ (mapLookup k l = some w →
        (RW.LoadAndDelete k l).1 = (w, true)
        ∧ (SM.LoadAndDelete k (some l)).1 = (w, true)) := by
  have he := mapLookup_mapErase_self k l
  refine ⟨?_, ?_, ?_, ?_, ?_, ?_, ?_⟩
  · simp [RW.Load, RW.Delete, he]
  · simp [SM.Load, SM.Delete, he]
  · cases hk : mapLookup k l with
    | some u => simp [RW.LoadAndDelete, RW.Load, hk, he]
    | none => simp [RW.LoadAndDelete, RW.Load, hk]
  · cases hk : mapLookup k l with
    | some u => simp [SM.LoadAndDelete, SM.Load, hk, he]
    | none => simp [SM.LoadAndDelete, SM.Load, hk]
  · cases hk : mapLookup k l with
    | some u => simp [RW.LoadAndDelete, hk, he]
    | none => simp [RW.LoadAndDelete, hk]
  · cases hk : mapLookup k l with
    | some u => simp [SM.LoadAndDelete, hk, he]
    | none => simp [SM.LoadAndDelete, hk]
  · intro hk
    exact ⟨by simp [RW.LoadAndDelete, hk], by simp [SM.LoadAndDelete, hk]⟩

/-- C7 witness: the delete-semantics theorem applied at a concrete
one-entry map. -/
theorem C7_witness :
    RW.Load 1 (RW.Delete 1 [((1 : Nat), (5 : Nat))]) = (0, false)
    ∧ (RW.LoadAndDelete 1 [((1 : Nat), (5 : Nat))]).1 = (5, true) :=
  ⟨(C7_delete_semantics 1 5 [(1, 5)]).1,
   ((C7_delete_semantics 1 5 [(1, 5)]).2.2.2.2.2.2 (by decide)).1⟩

/-- C8: for both backends, Store(k, v1) then Store(k, v2) then Load(k)
yields (v2, true), and the overwriting second Store leaves Len
unchanged. -/
theorem C8_overwrite_no_double_count [Inhabited V] (k : K) (v1 v2 : V)
    (l : List (K × V)) :
    RW.Load k (RW.Store k v2 (RW.Store k v1 l)) = (v2, true)
    ∧ RW.Len (RW.Store k v2 (RW.Store k v1 l)) = RW.Len (RW.Store k v1 l)
    ∧ SM.Load k (SM.Store k v2 (SM.Store k v1 (some l))) = (v2, true)
    ∧ SM.Len (SM.Store k v2 (SM.Store k v1 (some l)))
        = SM.Len (SM.Store k v1 (some l)) := by
  have h1 := mapLookup_mapStore_self k v1 l
  have h2 := mapLookup_mapStore_self k v2 (mapStore k v1 l)
  have hlen := length_mapStore k v2 (mapStore k v1 l)
  refine ⟨?_, ?_, ?_, ?_⟩
  · simp [RW.Load, RW.Store, h2]
  · simp [RW.Len, RW.Store, hlen, h1]
  · simp [SM.Load, SM.Store, h2]
  · show SM.Len (some (mapStore k v2 (mapStore k v1 l)))
        = SM.Len (some (mapStore k v1 l))
    rw [SM.Len_some, SM.Len_some, hlen]
    simp [h1]

/-- C9: for both backends, Range invokes its callback on an initial run
of the entries, stopping after the first entry on which the callback
returns false; a callback that never stops is invoked exactly once per
entry; and on a 128-entry map a stateful callback that returns false on
its 10th invocation is invoked exactly 10 times. -/
theorem C9_range_until_false [Inhabited V] (fn : K → V → Bool)
    (l : List (K × V)) :
    (∃ n, RW.Range fn l = l.take n)
    ∧ (∃ n, SM.Range fn (some l) = l.take n)
    ∧ ((∀ a b, fn a b = true) →
        RW.Range fn l = l ∧ SM.Range fn (some l) = l)
    ∧ (rangeFoldCount
        (fun (c : Nat) (_ : Nat) (_ : Nat) => (c + 1, decide (c + 1 < 10)))
        0 ((List.range 128).map (fun i => (i, i * i)))).2 = 10 := by
  refine ⟨rangeCalls_eq_take fn l, rangeCalls_eq_take fn l, ?_, by decide⟩
  intro h
  exact ⟨rangeCalls_of_true fn l h, rangeCalls_of_true fn l h⟩

/-- C9 witness: the Range theorem applied to a concrete map with an
always-true callback. -/
theorem C9_witness :
    RW.Range (fun (_ : Nat) (_ : Nat) => true) [((1 : Nat), (2 : Nat)), (3, 4)]
        = [(1, 2), (3, 4)]
    ∧ SM.Range (fun (_ : Nat) (_ : Nat) => true)
        (some [((1 : Nat), (2 : Nat)), (3, 4)]) = [(1, 2), (3, 4)] :=
  (C9_range_until_false (fun _ _ => true) [(1, 2), (3, 4)]).2.2.1
    (fun _ _ => rfl)

/-- C10: on a nil syncMap reference, LoadOrStore(k, v) returns (v, false)
as if it stored the value, yet no entry is created: a subsequent Load(k)
on the same nil reference returns the zero value with found=false and Len
returns 0. -/
theorem C10_nil_loadOrStore_lies [Inhabited V] (k : K) (v : V) :
    SM.LoadOrStore k v (none : Option (List (K × V))) = ((v, false), none)
    ∧ SM.Load k (SM.LoadOrStore k v (none : Option (List (K × V)))).2
        = (default, false)
    ∧ SM.Len (SM.LoadOrStore k v (none : Option (List (K × V)))).2 = 0 :=
  ⟨rfl, rfl, rfl⟩

end GxCmap
